import Mathlib

/-!
Verification development for the AIM LightGCN model (`src/model.py`).

The program's tensors are shallowly embedded as lists over a linear ordered
field `K` (instantiated with `ℝ` in every theorem, so that float arithmetic is
idealised as exact real arithmetic).  The square-root function used by
`torch.norm` / `F.normalize` and the `log`/`sigmoid` used by the loss are not
field operations, so they are threaded as explicit function parameters `sq`
and `lsig`; every theorem instantiates them with `Real.sqrt` and the real
`log ∘ sigmoid`.  Fallible Python code (calls that raise `TypeError`,
`RuntimeError` or `AssertionError`) is embedded with `Except String`.
-/

namespace AIMModel

variable {K : Type} [LinearOrderedField K]

/-- The state of an `AIM_LightGCN` module (`model.py`, lines 14-36):
`num_nodes`, `embedding_dim`, `num_layers` are stored as-is; `alpha` is the
registered buffer (a vector of `num_layers + 1` mixing coefficients in any
model produced by the constructor); `embedding` is `self.embedding.weight`
(`num_nodes × embedding_dim`); `beta` is `self.beta.weight`, a
`num_nodes × 1` matrix, kept as a list of singleton rows because its column
shape matters for broadcasting in `forward`. -/
structure Model (K : Type) where
  num_nodes : ℕ
  embedding_dim : ℕ
  num_layers : ℕ
  alpha : List K
  embedding : List (List K)
  beta : List (List K)

/-- Dot product of two rows: `(a * b).sum(dim=-1)` for 1-D tensors. -/
def dot (a b : List K) : K := (List.zipWith (fun x y => x * y) a b).sum

/-- Sum of squares of a row; `torch.norm(r, p=2)` is `sq (sumSq r)`. -/
def sumSq (r : List K) : K := (r.map (fun v => v * v)).sum

/-- Sum of squares of all entries of a matrix (Frobenius norm squared). -/
def sumSqM (p : List (List K)) : K := (p.map sumSq).sum

/-- `Tensor.mean()` of a 1-D tensor: sum divided by length. -/
def mean (l : List K) : K := l.sum / (l.length : K)

/-- The `eps` clamp of `torch.nn.functional.normalize` (default `1e-12`). -/
def fEps : K := 1 / 10 ^ 12

/-- One row of `F.normalize(x, p=2, dim=1)`: divide each entry by
`max ‖row‖₂ eps`, where `‖row‖₂ = sq (sumSq row)` and `sq` is the
square-root function of the numeric backend. -/
def normalizeRow (sq : K → K) (r : List K) : List K :=
  r.map (fun v => v / max (sq (sumSq r)) fEps)

/-- The all-zero row of a given width. -/
def zeroVec (d : ℕ) : List K := List.replicate d 0

/-- Width of the rows of a matrix (width of its first row). -/
def rowDim (x : List (List K)) : ℕ := (x.headD []).length

/-- Modelled from the spec: one hop of `LGConv` (§4.1 PropagationLayer, an
external `torch_geometric` dependency whose code is not part of this
repository): `out[i] = Σ_{(s,i) ∈ edges} w(s,i) · x[s]`, with unit weights
when no `edge_weight` is supplied. -/
def convOut (edges : List (ℕ × ℕ)) (ew : Option (List K)) (x : List (List K)) :
    List (List K) :=
  let ws := ew.getD (List.replicate edges.length 1)
  (List.range x.length).map (fun i =>
    (List.zip edges ws).foldl
      (fun acc e =>
        if e.1.2 = i then
          List.zipWith (fun a b => a + e.2 * b) acc (x.getD e.1.1 (zeroVec (rowDim x)))
        else acc)
      (zeroVec (rowDim x)))

/-- Tensor–scalar product `M * c` (elementwise). -/
def msmul (M : List (List K)) (c : K) : List (List K) :=
  M.map (fun r => r.map (fun a => a * c))

/-- Elementwise matrix sum `A + B` of two same-shaped matrices. -/
def madd (A B : List (List K)) : List (List K) :=
  List.zipWith (List.zipWith (fun a b => a + b)) A B

/-- The hop-accumulation loop of `get_embedding` (`model.py`, lines 46-51):
`out = x * alpha[0]`, then `num_layers` times `x = conv(x, edge_index)` and
`out = out + x * alpha[i+1]`.  Indexing `alpha` uses default `0` out of
range; constructed models always have `alpha.length = num_layers + 1`. -/
def accumOut (m : Model K) (edges : List (ℕ × ℕ)) (ew : Option (List K)) :
    List (List K) :=
  ((List.range m.num_layers).foldl
    (fun s i =>
      let x := convOut edges ew s.1
      (x, madd s.2 (msmul x (m.alpha.getD (i + 1) 0))))
    (m.embedding, msmul m.embedding (m.alpha.getD 0 0))).2

/-- `Tensor.chunk(2)`: split a 1-D tensor into a first half of size
`⌈len/2⌉` and the rest. -/
def chunk2 {α : Type} (l : List α) : List α × List α :=
  (l.take ((l.length + 1) / 2), l.drop ((l.length + 1) / 2))

/-- PyTorch broadcasting of a shape-`(n,)` vector `v` with a shape-`(m,1)`
column matrix `col`: the result is the `m × n` matrix with entry
`(i, j) = v[j] + col[i][0]`.  This is exactly what
`pos_rank + self.beta.weight[pos_item]` computes on lines 77-78. -/
def addVecCol (v : List K) (col : List (List K)) : List (List K) :=
  col.map (fun row => v.map (fun a => a + row.headD 0))

/-- Error raised by `torch.split(out, [None, None])` when the partition
sizes were omitted (the spec's `MissingScalingFactor`/partition family;
concretely a Python `TypeError`). -/
def splitNoneMsg : String := "TypeError: split sizes must be integers, got NoneType"

/-- Error raised by `torch.split(out, [num_users, num_items])` when
`num_users + num_items` differs from the number of rows (the spec's
`PartitionMismatch`; concretely a Python `RuntimeError`). -/
def partitionMismatchMsg : String :=
  "RuntimeError: split_with_sizes expects split_sizes to sum exactly to the size of dimension 0"

/-- Error raised by `item_emb * None` when `scaling_factor` is omitted (the
spec's `MissingScalingFactor`; concretely a Python `TypeError`). -/
def scalingNoneMsg : String :=
  "TypeError: unsupported operand types for mul: Tensor and NoneType"

/-- Error raised by a failed Python `assert`. -/
def assertMsg : String := "AssertionError"

/-- `AIM_LightGCN.__init__` (`model.py`, lines 15-36).  The `alpha` argument
is `None`, a float (`Sum.inl`) or a tensor (`Sum.inr`); `None` becomes the
float `1/(num_layers+1)`; a tensor must have length `num_layers + 1`
(`assert`, line 27) and is stored as given; a float is replicated
`num_layers + 1` times.  The random Xavier initial values of
`self.embedding.weight` and `self.beta.weight` are supplied by the caller as
`emb0` and `beta0` (randomness is external to the embedding). -/
def construct (num_nodes embedding_dim num_layers : ℕ)
    (alpha : Option (K ⊕ List K)) (emb0 beta0 : List (List K)) :
    Except String (Model K) :=
  match alpha.getD (Sum.inl (1 / ((num_layers : K) + 1))) with
  | Sum.inr t =>
      if t.length = num_layers + 1 then
        Except.ok ⟨num_nodes, embedding_dim, num_layers, t, emb0, beta0⟩
      else Except.error assertMsg
  | Sum.inl c =>
      Except.ok ⟨num_nodes, embedding_dim, num_layers,
        List.replicate (num_layers + 1) c, emb0, beta0⟩

/-- `AIM_LightGCN.get_embedding` (`model.py`, lines 44-57): accumulate the
hop mixture, `torch.split` it at `[num_users, num_items]` (which raises if a
size is `None` or if the sizes do not sum to the number of rows), L2-normalize
the item block row-wise, scale it by `scaling_factor` (raising if that is
`None`), and re-concatenate. -/
def get_embedding (sq : K → K) (m : Model K) (edges : List (ℕ × ℕ))
    (ew : Option (List K)) (num_users num_items : Option ℕ)
    (scaling_factor : Option K) : Except String (List (List K)) :=
  let out := accumOut m edges ew
  match num_users, num_items with
  | some nu, some ni =>
      if nu + ni = out.length then
        match scaling_factor with
        | some s =>
            let user_emb := out.take nu
            let item_emb :=
              (out.drop nu).map (fun r => (normalizeRow sq r).map (fun a => a * s))
            Except.ok (user_emb ++ item_emb)
        | none => Except.error scalingNoneMsg
      else Except.error partitionMismatchMsg
  | _, _ => Except.error splitNoneMsg

/-- `AIM_LightGCN.forward` (`model.py`, lines 59-80): default the label
index to the edges of the graph, compute embeddings, take the per-edge dot
products, `chunk(2)` them and the destination column, and add
`self.beta.weight[pos_item]` / `self.beta.weight[neg_item]` — column
matrices of shape `(n,1)` — to the two score vectors of shape `(n,)`, which
broadcasts to `n × n` matrices (see `addVecCol`). -/
def forward (sq : K → K) (m : Model K) (edges : List (ℕ × ℕ))
    (edge_label_index : Option (List ℕ × List ℕ))
    (num_users num_items : Option ℕ) (scaling_factor : Option K)
    (ew : Option (List K)) :
    Except String (List (List K) × List (List K)) :=
  let eli := edge_label_index.getD (edges.map Prod.fst, edges.map Prod.snd)
  match get_embedding sq m edges ew num_users num_items scaling_factor with
  | Except.error e => Except.error e
  | Except.ok out =>
      let out_src := eli.1.map (fun j => out.getD j [])
      let out_dst := eli.2.map (fun j => out.getD j [])
      let pos_neg_rank := List.zipWith dot out_src out_dst
      let pr := chunk2 pos_neg_rank
      let pi := chunk2 eli.2
      let posB := pi.1.map (fun j => m.beta.getD j [])
      let negB := pi.2.map (fun j => m.beta.getD j [])
      Except.ok (addVecCol pr.1 posB, addVecCol pr.2 negB)

/-- Stable insertion of index `j` into a list of indices ordered by
decreasing row value (used to model `Tensor.topk`). -/
def insertIdx (row : List K) (j : ℕ) : List ℕ → List ℕ
  | [] => [j]
  | i :: is => if row.getD i 0 < row.getD j 0 then j :: i :: is else i :: insertIdx row j is

/-- Indices of a row sorted by decreasing value. -/
def sortIdxDesc (row : List K) : List ℕ :=
  (List.range row.length).foldl (fun acc j => insertIdx row j acc) []

/-- `Tensor.topk(k).indices` for one row: the `k` highest-value indices in
decreasing-value order (tie-break implementation-defined, per spec §4.6). -/
def topkIdx (k : ℕ) (row : List K) : List ℕ := (sortIdxDesc row).take k

/-- `AIM_LightGCN.recommend` (`model.py`, lines 87-103).  Note line 89 calls
`self.get_embedding(edge_index, edge_weight)` *without* `num_users`,
`num_items` or `scaling_factor`, so `get_embedding` receives `None` for all
three and `torch.split` raises before any scoring happens; the remainder of
the body (subsetting, dense scores, top-k, index mapping) is dead code. -/
def recommend (sq : K → K) (m : Model K) (edges : List (ℕ × ℕ))
    (ew : Option (List K)) (src_index dst_index : Option (List ℕ)) (k : ℕ)
    (sorted : Bool) : Except String (List (List ℕ)) :=
  match get_embedding sq m edges ew none none none with
  | Except.error e => Except.error e
  | Except.ok emb =>
      let out_src := match src_index with
        | none => emb
        | some s => s.map (fun i => emb.getD i [])
      let out_dst := match dst_index with
        | none => emb
        | some s => s.map (fun i => emb.getD i [])
      let pred := out_src.map (fun r => out_dst.map (fun c => dot r c))
      let top := pred.map (topkIdx k)
      Except.ok (match dst_index with
        | none => top
        | some dIdx => top.map (List.map (fun j => dIdx.getD j 0)))

/-- `BPRLoss.forward` (`model.py`, lines 130-138): `-mean(logsigmoid(pos -
neg))` plus, only when `lambda_reg ≠ 0`, `lambda_reg * ‖parameters‖₂² /
len(positives)`.  `lsig` is the backend's `F.logsigmoid` and `sq` the
square root used by `Tensor.norm(p=2)` (which line 135 immediately squares). -/
def bprForward (sq lsig : K → K) (lambda_reg : K)
    (positives negatives : List K) (parameters : List (List K)) : K :=
  let log_prob := mean (List.zipWith (fun p n => lsig (p - n)) positives negatives)
  let reg := if lambda_reg ≠ 0 then
      lambda_reg * sq (sumSqM parameters) ^ 2 / (positives.length : K)
    else 0
  let result := -log_prob + reg
  result

/-- `AIM_LightGCN.recommendation_loss` (`model.py`, lines 109-115): restrict
the embedding table to `node_id` when one is given and apply `BPRLoss`. -/
def recommendation_loss (sq lsig : K → K) (m : Model K)
    (pos_edge_rank neg_edge_rank : List K) (node_id : Option (List ℕ))
    (lambda_reg : K) : K :=
  let emb := match node_id with
    | none => m.embedding
    | some ids => ids.map (fun i => m.embedding.getD i [])
  bprForward sq lsig lambda_reg pos_edge_rank neg_edge_rank emb

/-- State-passing reading of `get_embedding`: a method call maps the
pre-state to a result together with the post-state.  The body (lines 44-57)
contains no assignment to any field of `self` and no in-place tensor
operation, so the post-state is the pre-state itself. -/
def get_embeddingS (sq : K → K) (m : Model K) (edges : List (ℕ × ℕ))
    (ew : Option (List K)) (num_users num_items : Option ℕ)
    (scaling_factor : Option K) :
    Except String (List (List K)) × Model K :=
  (get_embedding sq m edges ew num_users num_items scaling_factor, m)

/-- State-passing reading of `forward` (lines 59-80): no field of `self` is
assigned and no in-place tensor operation occurs, so the post-state is the
pre-state. -/
def forwardS (sq : K → K) (m : Model K) (edges : List (ℕ × ℕ))
    (edge_label_index : Option (List ℕ × List ℕ))
    (num_users num_items : Option ℕ) (scaling_factor : Option K)
    (ew : Option (List K)) :
    Except String (List (List K) × List (List K)) × Model K :=
  (forward sq m edges edge_label_index num_users num_items scaling_factor ew, m)

/-- State-passing reading of `recommendation_loss` (lines 109-115): the body
only reads `self.embedding.weight`, so the post-state is the pre-state. -/
def recommendation_lossS (sq lsig : K → K) (m : Model K)
    (pos_edge_rank neg_edge_rank : List K) (node_id : Option (List ℕ))
    (lambda_reg : K) : K × Model K :=
  (recommendation_loss sq lsig m pos_edge_rank neg_edge_rank node_id lambda_reg, m)

/-- Euclidean norm of a row over `ℝ` (what `torch.norm(·, p=2)` computes). -/
noncomputable def euclNorm (r : List ℝ) : ℝ := Real.sqrt (sumSq r)

/-- The real sigmoid `1 / (1 + exp (-x))`, as computed by `torch.sigmoid`. -/
noncomputable def sigmoid (x : ℝ) : ℝ := 1 / (1 + Real.exp (-x))

/-- `F.logsigmoid` over `ℝ`: `log (sigmoid x)`. -/
noncomputable def logsigmoid (x : ℝ) : ℝ := Real.log (sigmoid x)

/-- Modelled from the spec: the loss formula of §4.5 with `lambda_reg = 0`,
written exactly as the spec's words `-mean(log(sigmoid(pos_rank -
neg_rank)))`, to be compared with the implementation `bprForward`. -/
noncomputable def bprSpecFormula (pos neg : List ℝ) : ℝ :=
  -(mean (List.zipWith (fun p n => Real.log (sigmoid (p - n))) pos neg))

/-- Concrete model used to evaluate `forward` for the edge-split shape check:
2 nodes (1 user, 1 item), dimension 2, 0 propagation layers, `alpha = [1]`. -/
def mdlC1 : Model ℝ := ⟨2, 2, 0, [1], [[2, 1], [0, 3]], [[100], [7]]⟩

/-- Concrete model used to evaluate `forward` for the per-edge score check:
2 nodes (1 user, 1 item), dimension 2, 0 propagation layers, `alpha = [1]`. -/
def mdlC3 : Model ℝ := ⟨2, 2, 0, [1], [[1, 2], [0, 2]], [[10], [20]]⟩

/-- Concrete model whose item row `[3, 4]` has Euclidean norm 5. -/
def mdlC4 : Model ℝ := ⟨1, 2, 0, [1], [[3, 4]], [[0]]⟩

/-- Concrete model whose single item row is the zero vector. -/
def mdlC4z : Model ℝ := ⟨1, 2, 0, [1], [[0, 0]], [[0]]⟩

/-- A junk model with an empty embedding table, used to exhibit that the
regularization-free loss ignores the stored tables. -/
def mdlJunk : Model ℝ := ⟨0, 0, 0, [], [], []⟩

/-- A tiny well-formed model used as a witness input for the partition check. -/
def mdlC5 : Model ℝ := ⟨1, 1, 0, [1], [[1]], [[0]]⟩

section Lemmas

/-- `convOut` preserves the number of rows. -/
theorem convOut_length (edges : List (ℕ × ℕ)) (ew : Option (List K))
    (x : List (List K)) : (convOut edges ew x).length = x.length := by
  simp [convOut]

/-- `msmul` preserves the number of rows. -/
theorem msmul_length (M : List (List K)) (c : K) :
    (msmul M c).length = M.length := by
  simp [msmul]

/-- `madd` of two matrices with `n` rows each has `n` rows. -/
theorem madd_length (A B : List (List K)) :
    (madd A B).length = min A.length B.length := by
  simp [madd]

/-- Both components of the hop-accumulation fold keep `m.embedding.length`
rows. -/
theorem accum_fold_length (edges : List (ℕ × ℕ)) (ew : Option (List K))
    (alpha : List K) (n : ℕ) :
    ∀ (l : List ℕ) (s : List (List K) × List (List K)),
      s.1.length = n → s.2.length = n →
      ((l.foldl
          (fun s i =>
            let x := convOut edges ew s.1
            (x, madd s.2 (msmul x (alpha.getD (i + 1) 0)))) s).1.length = n ∧
       (l.foldl
          (fun s i =>
            let x := convOut edges ew s.1
            (x, madd s.2 (msmul x (alpha.getD (i + 1) 0)))) s).2.length = n) := by
  intro l
  induction l with
  | nil => intro s h1 h2; exact ⟨h1, h2⟩
  | cons a t ih =>
      intro s h1 h2
      apply ih
      · simpa [convOut_length] using h1
      · simp [madd_length, msmul_length, convOut_length, h1, h2]

/-- The accumulated hop mixture has as many rows as the embedding table. -/
theorem accumOut_length (m : Model K) (edges : List (ℕ × ℕ))
    (ew : Option (List K)) :
    (accumOut m edges ew).length = m.embedding.length := by
  unfold accumOut
  exact (accum_fold_length edges ew m.alpha m.embedding.length
    (List.range m.num_layers) _ rfl (msmul_length _ _)).2

/-- Sums of squares are nonnegative. -/
theorem sumSq_nonneg (r : List ℝ) : 0 ≤ sumSq r := by
  induction r with
  | nil => simp [sumSq]
  | cons a t ih =>
      simp only [sumSq, List.map_cons, List.sum_cons] at *
      nlinarith [sq_nonneg a]

/-- Scaling every entry of a row by `s / D` scales its sum of squares by
`(s / D) ^ 2`. -/
theorem sumSq_div_mul (r : List K) (D s : K) :
    sumSq (r.map (fun v => v / D * s)) = sumSq r * (s / D) ^ 2 := by
  induction r with
  | nil => simp [sumSq]
  | cons a t ih =>
      simp only [sumSq, List.map_cons, List.map_map, List.sum_cons] at *
      rw [ih]
      ring

end Lemmas

/-- Evaluating the clamped norm `max ‖r‖₂ eps` when the norm is a known
rational `c ≥ eps`. -/
theorem max_sqrt_fEps (x c : ℝ) (hc : 0 ≤ c) (hx : x = c ^ 2)
    (hce : fEps ≤ c) : max (Real.sqrt x) fEps = c := by
  rw [hx, Real.sqrt_sq hc]
  exact max_eq_left hce

/-- C1: the claim says `forward` with `2n` labeled edges returns two
length-`n` vectors.  Evaluating the code at a concrete valid input with
`2n = 4` labeled edges shows each returned component is instead a `2 × 2`
matrix: `pos_rank + self.beta.weight[pos_item]` broadcasts the `(n,)` score
vector against the `(n, 1)` bias column (entry `(i, j)` is score `j` plus
bias `i`), so `forward` returns `n × n` matrices, not length-`n` vectors. -/
theorem C1_forward_returns_matrices :
    forward Real.sqrt mdlC1 [] (some ([0, 1, 0, 1], [1, 1, 0, 0]))
        (some 1) (some 1) (some 2) none =
      Except.ok ([[(9 : ℝ), 11], [9, 11]], [[105, 102], [105, 102]]) := by
  have h1 : max (Real.sqrt (sumSq ([0, 3] : List ℝ))) fEps = 3 := by
    apply max_sqrt_fEps <;> norm_num [sumSq, fEps]
  have hacc : accumOut mdlC1 [] none = [[(2 : ℝ), 1], [0, 3]] := by
    simp [accumOut, mdlC1, msmul]
  have hnorm : normalizeRow Real.sqrt ([0, 3] : List ℝ) = [0, 1] := by
    simp [normalizeRow, h1]
  have hemb : get_embedding Real.sqrt mdlC1 [] none (some 1) (some 1)
      (some 2) = Except.ok [[(2 : ℝ), 1], [0, 2]] := by
    simp [get_embedding, hacc, hnorm]
  simp only [forward]
  rw [hemb]
  simp [dot, chunk2, addVecCol, mdlC1]
  norm_num

/-- C3: the claim says the score for each labeled edge `(s, d)` is the
scalar `dot(embedding[s], embedding[d]) + bias[d]`.  Evaluating the code at
a concrete valid input: the final embeddings are `[[1, 2], [0, 1]]`, the
per-edge dot products of the positive half are `[5, 1]` and the destination
biases are `[10, 20]`, so the claimed `pos_rank` would be the vector
`[15, 21]` — but the code returns the `2 × 2` matrix `[[15, 11], [25, 21]]`
(the claimed scores survive only on its diagonal, and each off-diagonal
entry mixes one edge's dot product with another edge's bias). -/
theorem C3_score_bias_broadcast :
    forward Real.sqrt mdlC3 [] (some ([0, 1, 1, 0], [0, 1, 1, 0]))
        (some 1) (some 1) (some 1) none =
      Except.ok ([[(15 : ℝ), 11], [25, 21]], [[21, 25], [11, 15]]) := by
  have h1 : max (Real.sqrt (sumSq ([0, 2] : List ℝ))) fEps = 2 := by
    apply max_sqrt_fEps <;> norm_num [sumSq, fEps]
  have hacc : accumOut mdlC3 [] none = [[(1 : ℝ), 2], [0, 2]] := by
    simp [accumOut, mdlC3, msmul]
  have hnorm : normalizeRow Real.sqrt ([0, 2] : List ℝ) = [0, 1] := by
    simp [normalizeRow, h1]
  have hemb : get_embedding Real.sqrt mdlC3 [] none (some 1) (some 1)
      (some 1) = Except.ok [[(1 : ℝ), 2], [0, 1]] := by
    simp [get_embedding, hacc, hnorm]
  simp only [forward]
  rw [hemb]
  simp [dot, chunk2, addVecCol, mdlC3]
  norm_num

/-- Scaling a row that was divided by its (clamp-free) Euclidean norm by a
positive factor `s` yields a row of Euclidean norm exactly `s`. -/
theorem euclNorm_normalize_scale (r : List ℝ) (s : ℝ) (hs : 0 < s)
    (hr : fEps ≤ euclNorm r) :
    euclNorm ((normalizeRow Real.sqrt r).map (fun a => a * s)) = s := by
  have her : euclNorm r = Real.sqrt (sumSq r) := rfl
  have hN : (0 : ℝ) < euclNorm r :=
    lt_of_lt_of_le (by norm_num [fEps]) hr
  have hmax : max (Real.sqrt (sumSq r)) fEps = euclNorm r := by
    rw [← her]
    exact max_eq_left hr
  unfold normalizeRow
  rw [List.map_map]
  have hcomp : ((fun a => a * s) ∘ fun v => v / max (Real.sqrt (sumSq r)) fEps)
      = fun v => v / euclNorm r * s := by
    funext v
    simp [hmax]
  rw [hcomp]
  unfold euclNorm
  rw [her] at hN
  rw [sumSq_div_mul, Real.sqrt_mul (sumSq_nonneg r), Real.sqrt_sq_eq_abs,
    abs_of_pos (div_pos hs hN)]
  field_simp

/-- C4 (amended): the claim asserted every item row of the output has norm
`s`; that fails on rows whose pre-normalization norm is below `F.normalize`'s
`eps` clamp (`1e-12`) — in particular zero rows, see the counterexample.
Amended: for every successful `get_embedding` call with `scaling_factor =
s > 0`, every item row whose pre-normalization Euclidean norm is at least
`eps` has Euclidean norm exactly `s` in the returned array. -/
theorem C4_item_rows_normalized (m : Model ℝ) (edges : List (ℕ × ℕ))
    (ew : Option (List ℝ)) (nu ni : ℕ) (s : ℝ) (i : ℕ)
    (out : List (List ℝ)) (hs : 0 < s)
    (hok : get_embedding Real.sqrt m edges ew (some nu) (some ni) (some s) =
      Except.ok out)
    (hi : i < ni)
    (hpre : fEps ≤ euclNorm ((accumOut m edges ew).getD (nu + i) [])) :
    euclNorm (out.getD (nu + i) []) = s := by
  simp only [get_embedding] at hok
  by_cases h : nu + ni = (accumOut m edges ew).length
  · rw [if_pos h] at hok
    injection hok with hout
    subst hout
    have htk : ((accumOut m edges ew).take nu).length = nu := by
      rw [List.length_take]
      omega
    rw [List.getD_append_right _ _ _ _ (by omega : ((accumOut m edges ew).take nu).length ≤ nu + i)]
    rw [htk, show nu + i - nu = i by omega]
    have him : i < (((accumOut m edges ew).drop nu).map
        (fun r => (normalizeRow Real.sqrt r).map (fun a => a * s))).length := by
      simp [List.length_drop]
      omega
    rw [List.getD_eq_getElem _ _ him]
    have hdi : i < ((accumOut m edges ew).drop nu).length := by
      simp [List.length_drop]
      omega
    rw [List.getElem_map, List.getElem_drop]
    apply euclNorm_normalize_scale _ _ hs
    rw [List.getD_eq_getElem _ _ (by omega : nu + i < (accumOut m edges ew).length)] at hpre
    exact hpre
  · rw [if_neg h] at hok
    exact absurd hok (by simp)

/-- Witness for C4 at a concrete input: a 1-item model with item row
`[3, 4]` (norm `5 ≥ eps`), `scaling_factor = 2`; the returned item row is
`[6/5, 8/5]`, of Euclidean norm exactly `2`. -/
theorem C4_item_rows_normalized_witness :
    euclNorm (([[(6 : ℝ)/5, 8/5]]).getD (0 + 0) []) = 2 := by
  have h1 : max (Real.sqrt (sumSq ([3, 4] : List ℝ))) fEps = 5 := by
    apply max_sqrt_fEps <;> norm_num [sumSq, fEps]
  have hacc : accumOut mdlC4 [] none = [[(3 : ℝ), 4]] := by
    simp [accumOut, mdlC4, msmul]
  have hok : get_embedding Real.sqrt mdlC4 [] none (some 0) (some 1)
      (some 2) = Except.ok [[(6 : ℝ)/5, 8/5]] := by
    have hnorm : normalizeRow Real.sqrt ([3, 4] : List ℝ) = [3/5, 4/5] := by
      simp [normalizeRow, h1]
    simp [get_embedding, hacc, hnorm]
    norm_num
  have hpre : fEps ≤ euclNorm ((accumOut mdlC4 [] none).getD (0 + 0) []) := by
    rw [hacc]
    have h5 : euclNorm ([3, 4] : List ℝ) = 5 := by
      unfold euclNorm
      rw [show sumSq ([3, 4] : List ℝ) = 25 by norm_num [sumSq],
        show (25 : ℝ) = 5 ^ 2 by norm_num,
        Real.sqrt_sq (by norm_num : (0 : ℝ) ≤ 5)]
    simpa [h5] using (by norm_num [fEps] : (fEps : ℝ) ≤ 5)
  exact C4_item_rows_normalized mdlC4 [] none 0 1 2 0 _
    (by norm_num) hok (by norm_num) hpre

/-- Counterexample to C4 as stated: with a zero item row and
`scaling_factor = 1 > 0`, `get_embedding` succeeds but the returned item
row is the zero vector, whose Euclidean norm is `0`, not `1` (`F.normalize`
clamps the denominator to `eps`, so a zero row stays zero instead of being
rescaled to norm `s`). -/
theorem C4_zero_row_counterexample :
    get_embedding Real.sqrt mdlC4z [] none (some 0) (some 1) (some 1) =
      Except.ok [[(0 : ℝ), 0]] ∧
    euclNorm (([[(0 : ℝ), 0]]).getD (0 + 0) []) ≠ 1 := by
  constructor
  · have hacc : accumOut mdlC4z [] none = [[(0 : ℝ), 0]] := by
      simp [accumOut, mdlC4z, msmul]
    have hnorm : normalizeRow Real.sqrt ([0, 0] : List ℝ) = [0, 0] := by
      simp [normalizeRow]
    simp [get_embedding, hacc, hnorm]
  · simp [euclNorm, sumSq]

/-- C2: the claim says `recommend` completes without failing and returns
per-row argmax indices for `k = 1`.  In fact `recommend` (line 89) calls
`get_embedding` without `num_users`, `num_items` or `scaling_factor`, so
`torch.split(out, [None, None])` raises a `TypeError` on every call, for
every graph, every `k` and every choice of `src_index`/`dst_index`: the
whole retrieval body is unreachable. -/
theorem C2_recommend_always_fails (sq : ℝ → ℝ) (m : Model ℝ)
    (edges : List (ℕ × ℕ)) (ew : Option (List ℝ))
    (src_index dst_index : Option (List ℕ)) (k : ℕ) (s : Bool) :
    recommend sq m edges ew src_index dst_index k s =
      Except.error splitNoneMsg := rfl

/-- C5: for every call to `get_embedding` on a well-formed model (embedding
table with `num_nodes` rows) in which `num_users + num_items` differs from
`num_nodes`, the call fails synchronously at the `torch.split` on line 53 —
the first use of the malformed partition sizes — with the partition-mismatch
error, before any normalization or scaling is attempted. -/
theorem C5_partition_mismatch (sq : ℝ → ℝ) (m : Model ℝ)
    (edges : List (ℕ × ℕ)) (ew : Option (List ℝ)) (nu ni : ℕ)
    (sf : Option ℝ) (hwf : m.embedding.length = m.num_nodes)
    (hne : nu + ni ≠ m.num_nodes) :
    get_embedding sq m edges ew (some nu) (some ni) sf =
      Except.error partitionMismatchMsg := by
  have hlen : (accumOut m edges ew).length = m.num_nodes := by
    rw [accumOut_length, hwf]
  simp only [get_embedding, hlen]
  rw [if_neg hne]

/-- Witness for C5 at a concrete malformed input: a 1-node model queried
with `num_users = 3`, `num_items = 4`. -/
theorem C5_partition_mismatch_witness :
    get_embedding Real.sqrt mdlC5 [] none (some 3) (some 4) (some 1) =
      Except.error partitionMismatchMsg :=
  C5_partition_mismatch Real.sqrt mdlC5 [] none 3 4 (some 1) rfl (by decide)

/-- C6: supplying an explicit alpha vector whose length differs from
`num_layers + 1` makes construction fail (the `assert` on line 27), and
supplying one of length exactly `num_layers + 1` makes construction succeed
with that very vector stored as the model's alpha buffer. -/
theorem C6_alpha_length_check :
    (∀ (nn ed L : ℕ) (t : List ℝ) (emb0 beta0 : List (List ℝ)),
        t.length ≠ L + 1 →
          construct nn ed L (some (Sum.inr t)) emb0 beta0 =
            Except.error assertMsg) ∧
    (∀ (nn ed L : ℕ) (t : List ℝ) (emb0 beta0 : List (List ℝ)),
        t.length = L + 1 →
          construct nn ed L (some (Sum.inr t)) emb0 beta0 =
            Except.ok ⟨nn, ed, L, t, emb0, beta0⟩) := by
  constructor
  · intro nn ed L t emb0 beta0 h
    simp [construct, h]
  · intro nn ed L t emb0 beta0 h
    simp [construct, h]

/-- Witness for C6: with `num_layers = 1`, the length-3 vector `[1, 2, 3]`
is rejected while the length-2 vector `[1, 2]` is accepted and stored. -/
theorem C6_alpha_length_check_witness :
    construct 2 2 1 (some (Sum.inr [(1 : ℝ), 2, 3])) [] [] =
      Except.error assertMsg ∧
    construct 2 2 1 (some (Sum.inr [(1 : ℝ), 2])) [] [] =
      Except.ok ⟨2, 2, 1, [(1 : ℝ), 2], [], []⟩ :=
  ⟨C6_alpha_length_check.1 2 2 1 [1, 2, 3] [] [] (by simp),
   C6_alpha_length_check.2 2 2 1 [1, 2] [] [] (by simp)⟩

/-- C9: constructing with no alpha argument always succeeds and stores the
uniform vector with `num_layers + 1` entries, each equal to
`1 / (num_layers + 1)`, whose entries sum to `1` in exact arithmetic. -/
theorem C9_default_alpha (nn ed L : ℕ) (emb0 beta0 : List (List ℝ)) :
    construct nn ed L none emb0 beta0 =
      Except.ok ⟨nn, ed, L, List.replicate (L + 1) (1 / ((L : ℝ) + 1)),
        emb0, beta0⟩ ∧
    (List.replicate (L + 1) (1 / ((L : ℝ) + 1))).length = L + 1 ∧
    (∀ a ∈ List.replicate (L + 1) (1 / ((L : ℝ) + 1)), a = 1 / ((L : ℝ) + 1)) ∧
    (List.replicate (L + 1) (1 / ((L : ℝ) + 1))).sum = 1 := by
  refine ⟨rfl, by simp, fun a ha => List.eq_of_mem_replicate ha, ?_⟩
  rw [List.sum_replicate, nsmul_eq_mul]
  have hL : ((L : ℝ) + 1) ≠ 0 := by positivity
  push_cast
  field_simp

/-- The real `logsigmoid` is strictly increasing. -/
theorem logsigmoid_lt_logsigmoid {x y : ℝ} (h : x < y) :
    logsigmoid x < logsigmoid y := by
  unfold logsigmoid sigmoid
  rw [one_div, Real.log_inv, one_div, Real.log_inv, neg_lt_neg_iff]
  apply Real.log_lt_log
  · positivity
  · have := Real.exp_lt_exp.mpr (neg_lt_neg h)
    linarith

/-- Raising entry `i` of the positive scores by `d > 0` strictly raises the
sum of the pairwise `logsigmoid` terms. -/
theorem sum_logsigmoid_set_lt (d : ℝ) (hd : 0 < d) :
    ∀ (i : ℕ) (pos neg : List ℝ), i < pos.length → i < neg.length →
      (List.zipWith (fun p n => logsigmoid (p - n)) pos neg).sum <
        (List.zipWith (fun p n => logsigmoid (p - n))
          (pos.set i (pos.getD i 0 + d)) neg).sum := by
  intro i
  induction i with
  | zero =>
      intro pos neg hp hn
      cases pos with
      | nil => simp at hp
      | cons p ps =>
          cases neg with
          | nil => simp at hn
          | cons n ns =>
              simp only [List.set_cons_zero, List.zipWith_cons_cons,
                List.sum_cons, List.getD_cons_zero]
              have := logsigmoid_lt_logsigmoid
                (show p - n < p + d - n by linarith)
              linarith
  | succ j ih =>
      intro pos neg hp hn
      cases pos with
      | nil => simp at hp
      | cons p ps =>
          cases neg with
          | nil => simp at hn
          | cons n ns =>
              simp only [List.set_cons_succ, List.zipWith_cons_cons,
                List.sum_cons, List.getD_cons_succ]
              have := ih ps ns (by simpa using hp) (by simpa using hn)
              linarith

/-- C8: holding `neg_rank`, all other entries of `pos_rank`, the
regularization coefficient and the parameter matrix fixed, replacing
`pos_rank[i]` by `pos_rank[i] + d` with `d > 0` strictly decreases the BPR
loss (for every `lambda_reg`, since the regularization term depends only on
the parameters and the unchanged length of `pos_rank`). -/
theorem C8_increasing_pos_rank_decreases_loss (sq : ℝ → ℝ) (lr : ℝ)
    (params : List (List ℝ)) (pos neg : List ℝ) (i : ℕ) (d : ℝ)
    (hi : i < pos.length) (hlen : pos.length = neg.length) (hd : 0 < d) :
    bprForward sq logsigmoid lr (pos.set i (pos.getD i 0 + d)) neg params <
      bprForward sq logsigmoid lr pos neg params := by
  have hsum := sum_logsigmoid_set_lt d hd i pos neg hi (hlen ▸ hi)
  have hlp : 0 < pos.length := lt_of_le_of_lt (Nat.zero_le i) hi
  simp only [bprForward, mean, List.length_zipWith, List.length_set, ← hlen,
    min_self]
  have hdiv :
      (List.zipWith (fun p n => logsigmoid (p - n)) pos neg).sum /
          (pos.length : ℝ) <
        (List.zipWith (fun p n => logsigmoid (p - n))
            (pos.set i (pos.getD i 0 + d)) neg).sum / (pos.length : ℝ) :=
    (div_lt_div_iff_of_pos_right (by exact_mod_cast hlp)).mpr hsum
  linarith

/-- Witness for C8: raising the single positive score `0` by `1` with the
negative score fixed at `0` strictly decreases the loss. -/
theorem C8_increasing_pos_rank_decreases_loss_witness :
    bprForward Real.sqrt logsigmoid 0
        (([(0 : ℝ)]).set 0 (([(0 : ℝ)]).getD 0 0 + 1)) [0] [] <
      bprForward Real.sqrt logsigmoid 0 [(0 : ℝ)] [0] [] :=
  C8_increasing_pos_rank_decreases_loss Real.sqrt 0 [] [0] [0] 0 1
    (by simp) rfl one_pos

/-- `e² > 7.389056`, from the 9-digit bounds on `e`. -/
theorem exp_two_gt : (7.389056 : ℝ) < Real.exp 2 := by
  have h2 : Real.exp 2 = Real.exp 1 * Real.exp 1 := by
    rw [← Real.exp_add]
    norm_num
  rw [h2]
  nlinarith [Real.exp_one_gt_d9, Real.exp_pos 1]

/-- `e² < 7.389057`, from the 9-digit bounds on `e`. -/
theorem exp_two_lt : Real.exp 2 < (7.389057 : ℝ) := by
  have h2 : Real.exp 2 = Real.exp 1 * Real.exp 1 := by
    rw [← Real.exp_add]
    norm_num
  rw [h2]
  nlinarith [Real.exp_one_lt_d9, Real.exp_pos 1]

/-- Lower bound on `e⁻²`. -/
theorem exp_neg_two_gt : (0.1353352 : ℝ) < Real.exp (-2) := by
  rw [Real.exp_neg]
  have hp := Real.exp_pos 2
  have hinv : Real.exp 2 * (Real.exp 2)⁻¹ = 1 := mul_inv_cancel₀ (ne_of_gt hp)
  nlinarith [exp_two_lt, inv_pos.mpr hp]

/-- Upper bound on `e⁻²`. -/
theorem exp_neg_two_lt : Real.exp (-2) < (0.1353354 : ℝ) := by
  rw [Real.exp_neg]
  have hp := Real.exp_pos 2
  have hinv : Real.exp 2 * (Real.exp 2)⁻¹ = 1 := mul_inv_cancel₀ (ne_of_gt hp)
  nlinarith [exp_two_gt, inv_pos.mpr hp]

/-- Taylor upper bound: `exp 0.1259 < 1.1353352`. -/
theorem exp_1259_lt : Real.exp 0.1259 < (1.1353352 : ℝ) := by
  have h := Real.exp_bound' (by norm_num : (0 : ℝ) ≤ 0.1259)
    (by norm_num : (0.1259 : ℝ) ≤ 1) (n := 4) (by norm_num)
  calc Real.exp 0.1259 ≤ _ := h
    _ < 1.1353352 := by
        norm_num [Finset.sum_range_succ, Nat.factorial]

/-- Taylor lower bound: `exp 0.1279 > 1.1353354`. -/
theorem exp_1279_gt : (1.1353354 : ℝ) < Real.exp 0.1279 := by
  have h := Real.exp_bound (x := 0.1279)
    (by rw [abs_of_nonneg] <;> norm_num) (n := 4) (by norm_num)
  have h1 := (abs_le.mp h).1
  rw [abs_of_nonneg (by norm_num : (0 : ℝ) ≤ 0.1279)] at h1
  simp only [Finset.sum_range_succ, Finset.sum_range_zero, Nat.factorial] at h1
  norm_num at h1
  linarith

/-- The loss value of `BPRLoss` with `lambda_reg = 0` at `pos = [2]`,
`neg = [0]` is `log (1 + e⁻²)`. -/
theorem loss_at_2_0 :
    bprForward Real.sqrt logsigmoid 0 [(2 : ℝ)] [0] [] =
      Real.log (1 + Real.exp (-2)) := by
  simp [bprForward, mean, logsigmoid, sigmoid]

/-- C7: with `lambda_reg = 0`, `recommendation_loss` equals the spec formula
`-mean(log(sigmoid(pos - neg)))`; its value does not depend on the model
(hence not on the embedding table), on the node-index subset, or on the
norm-computing square-root function (no norm is computed); and at
`pos = [2.0]`, `neg = [0.0]` the value is within `10⁻³` of `0.1269`, even
for a model with an empty embedding table. -/
theorem C7_zero_reg_loss :
    (∀ (m : Model ℝ) (pos neg : List ℝ) (nid : Option (List ℕ)),
        recommendation_loss Real.sqrt logsigmoid m pos neg nid 0 =
          bprSpecFormula pos neg) ∧
    (∀ (sq sq' : ℝ → ℝ) (m m' : Model ℝ) (pos neg : List ℝ)
        (nid nid' : Option (List ℕ)),
        recommendation_loss sq logsigmoid m pos neg nid 0 =
          recommendation_loss sq' logsigmoid m' pos neg nid' 0) ∧
    |recommendation_loss Real.sqrt logsigmoid mdlJunk [2] [0] none 0 - 0.1269|
      < 1 / 1000 := by
  refine ⟨?_, ?_, ?_⟩
  · intro m pos neg nid
    simp [recommendation_loss, bprForward, bprSpecFormula, logsigmoid]
  · intro sq sq' m m' pos neg nid nid'
    simp [recommendation_loss, bprForward]
  · have hval : recommendation_loss Real.sqrt logsigmoid mdlJunk [2] [0]
        none 0 = Real.log (1 + Real.exp (-2)) := by
      simp only [recommendation_loss]
      exact loss_at_2_0
    rw [hval]
    have hpos : (0 : ℝ) < 1 + Real.exp (-2) := by positivity
    have hub : Real.log (1 + Real.exp (-2)) < 0.1279 := by
      rw [Real.log_lt_iff_lt_exp hpos]
      have := exp_neg_two_lt
      calc 1 + Real.exp (-2) < 1.1353354 := by linarith
        _ < Real.exp 0.1279 := exp_1279_gt
    have hlb : (0.1259 : ℝ) < Real.log (1 + Real.exp (-2)) := by
      rw [Real.lt_log_iff_exp_lt hpos]
      have := exp_neg_two_gt
      calc Real.exp 0.1259 < 1.1353352 := exp_1259_lt
        _ < 1 + Real.exp (-2) := by linarith
    rw [abs_lt]
    constructor <;> linarith

/-- C10: `get_embedding`, `forward` and `recommendation_loss` leave the
model state unchanged: in the state-passing reading of the three methods
(whose bodies contain no assignment to `self` and no in-place tensor
operation), the post-state equals the pre-state for every input. -/
theorem C10_reads_leave_state_unchanged (sq lsig : ℝ → ℝ) (m : Model ℝ)
    (edges : List (ℕ × ℕ)) (eli : Option (List ℕ × List ℕ))
    (ew : Option (List ℝ)) (nu ni : Option ℕ) (sf : Option ℝ)
    (pos neg : List ℝ) (nid : Option (List ℕ)) (lr : ℝ) :
    (get_embeddingS sq m edges ew nu ni sf).2 = m ∧
    (forwardS sq m edges eli nu ni sf ew).2 = m ∧
    (recommendation_lossS sq lsig m pos neg nid lr).2 = m :=
  ⟨rfl, rfl, rfl⟩

end AIMModel
